import Mathlib

/-!
Verification of the contextvars backport (a pure-Python implementation of
PEP 567 context variables) against its natural-language specification.

The embedding models Python object identity with natural-number ids:
every `ContextVar`, `Context` and `Token` object is an id into the heap
recorded in `State`.  The `immutables.Map` snapshot that backs a `Context`
(`Context._data`) is modelled by `Pmap`, a function from variable ids to
optional values; `Pmap.set` and `Pmap.delete` return new maps and never
mutate the receiver, and `Pmap.delete` fails (returns `none`, the model of
`KeyError`) when the key is absent, exactly like `immutables.Map.delete`.
The thread-local registry slot (`_state.context`) is `State.activeSlot`;
`getContext` models `_get_context`, which lazily creates an empty Context
on first use, and `setContext` models `_set_context`.
-/

/-- Values stored in context variables.  The library is generic in the
value type; the model fixes it to `Nat`, which is enough to distinguish
any two bindings. -/
abbrev Value := Nat

/-- Model of the `immutables.Map` snapshot held in `Context._data`,
keyed by `ContextVar` identity (a variable id). -/
abbrev Pmap := Nat → Option Value

namespace Pmap

/-- Model of `immutables.Map.set`: returns a new map, receiver untouched. -/
def set (m : Pmap) (k : Nat) (v : Value) : Pmap :=
  fun i => if i = k then some v else m i

/-- Model of `immutables.Map.delete`: returns a new map with the key removed, or
`none` (modelling `KeyError`) when the key is absent. -/
def delete (m : Pmap) (k : Nat) : Option Pmap :=
  match m k with
  | some _ => some (fun i => if i = k then none else m i)
  | none => none

end Pmap

/-- The failure conditions surfaced by the library (section 7 of the
spec).  Each constructor stands for one concrete Python exception:
`tokenUsedErr` is `RuntimeError("Token has already been used once")`,
`tokenWrongVarErr` is `ValueError("Token was created by a different
ContextVar")`, `tokenWrongCtxErr` is `ValueError("Token was created in a
different Context")`, `alreadyEnteredErr` is `RuntimeError("cannot enter
context: ... is already entered")`, `keyErr` is `KeyError`, `lookupErr`
is `LookupError`, `typeErr` is `TypeError`.  `userRaise` models an
arbitrary exception raised by a callable, and `badRef` marks a program
that refers to an object id never allocated (no Python counterpart:
Python code cannot forge references). -/
inductive Err where
  | typeErr
  | keyErr
  | lookupErr
  | tokenUsedErr
  | tokenWrongVarErr
  | tokenWrongCtxErr
  | alreadyEnteredErr
  | userRaise (n : Nat)
  | badRef
  deriving DecidableEq

/-- The state of a `ContextVar` object: `_name` and `_default`
(`none` models the `_NO_DEFAULT` sentinel). -/
structure VarData where
  name : String
  default : Option Value
  deriving DecidableEq

/-- The state of a `Context` object: `_data` (the snapshot) and
`_prev_context` (`some p` while entered, holding the id of the context
that was active when `run` began; `none` otherwise). -/
structure CtxData where
  data : Pmap
  prevCtx : Option Nat

/-- The state of a `Token` object: `_context`, `_var`, `_old_value`
(`none` models the `Token.MISSING` sentinel) and `_used`. -/
structure TokData where
  context : Nat
  var : Nat
  oldValue : Option Value
  used : Bool
  deriving DecidableEq

/-- The whole mutable state: the three object heaps, the registry slot
of the (single) execution unit, and fresh-id counters. -/
structure State where
  vars : Nat → Option VarData
  ctxs : Nat → Option CtxData
  toks : Nat → Option TokData
  activeSlot : Option Nat
  nextVar : Nat
  nextCtx : Nat
  nextTok : Nat

/-- The state at interpreter start: no objects, empty registry slot. -/
def initState : State :=
  { vars := fun _ => none, ctxs := fun _ => none, toks := fun _ => none,
    activeSlot := none, nextVar := 0, nextCtx := 0, nextTok := 0 }

/-- Model of `_get_context`: returns the active context, lazily creating and
installing a fresh empty one when the registry slot is empty. -/
def getContext (s : State) : Nat × State :=
  match s.activeSlot with
  | some c => (c, s)
  | none =>
    let c := s.nextCtx
    (c, { s with
            ctxs := fun i => if i = c then some ⟨fun _ => none, none⟩ else s.ctxs i,
            activeSlot := some c,
            nextCtx := c + 1 })

/-- Model of `_set_context`: stores a context reference in the registry slot. -/
def setContext (s : State) (c : Option Nat) : State :=
  { s with activeSlot := c }

/-- Assignment to `Context._prev_context` on an existing context object
(no-op on a dangling id). -/
def setPrev (s : State) (c : Nat) (pv : Option Nat) : State :=
  { s with
      ctxs := fun i =>
        if i = c then (s.ctxs c).map (fun cd => ⟨cd.data, pv⟩) else s.ctxs i }

/-- Argument type for `ContextVar.__init__`: a dynamically typed `name`;
accepts any `str`, rejects everything else with `TypeError`. -/
inductive PyObj where
  | pyStr (s : String)
  | pyInt (n : Int)
  | pyNone
  deriving DecidableEq

/-- Model of `ContextVar.__init__`: `if not isinstance(name, str): raise
TypeError("context variable name must be a str")`; then stores the name
and the (optional) default. -/
def ContextVar.mk0 (name : PyObj) (d : Option Value) : Except Err VarData :=
  match name with
  | PyObj.pyStr s => Except.ok ⟨s, d⟩
  | _ => Except.error Err.typeErr

/-- Allocation of a `ContextVar` object (the success path of
`ContextVar.__init__`), returning its id. -/
def ContextVar.new (s : State) (name : String) (d : Option Value) : Nat × State :=
  let n := s.nextVar
  (n, { s with
          vars := fun i => if i = n then some ⟨name, d⟩ else s.vars i,
          nextVar := n + 1 })

/-- Allocation of a fresh empty `Context` object (`Context.__init__`). -/
def Context.new (s : State) : Nat × State :=
  let n := s.nextCtx
  (n, { s with
          ctxs := fun i => if i = n then some ⟨fun _ => none, none⟩ else s.ctxs i,
          nextCtx := n + 1 })

/-- Model of `Context.copy`: a new Context sharing the receiver's snapshot, with
`_prev_context = None`. -/
def Context.copy (s : State) (c : Nat) : Except Err Nat × State :=
  match s.ctxs c with
  | none => (Except.error Err.badRef, s)
  | some cd =>
    let n := s.nextCtx
    (Except.ok n,
     { s with
         ctxs := fun i => if i = n then some ⟨cd.data, none⟩ else s.ctxs i,
         nextCtx := n + 1 })

/-- Model of `ContextVar.get`: resolve the active context; return the bound value
if present; else the call-site fallback if given; else the constructor
default if given; else fail with `LookupError`. -/
def ContextVar.get (s : State) (v : Nat) (fb : Option Value) :
    Except Err Value × State :=
  let p := getContext s
  match p.2.ctxs p.1 with
  | none => (Except.error Err.badRef, p.2)
  | some cd =>
    match cd.data v with
    | some x => (Except.ok x, p.2)
    | none =>
      match fb with
      | some x => (Except.ok x, p.2)
      | none =>
        match p.2.vars v with
        | none => (Except.error Err.badRef, p.2)
        | some vd =>
          match vd.default with
          | some x => (Except.ok x, p.2)
          | none => (Except.error Err.lookupErr, p.2)

/-- Model of `ContextVar.set`: resolve the active context, read the prior binding
(or `MISSING`), replace the context's snapshot with
`data.set(self, value)`, and return a fresh unused Token recording
(context, var, prior value). -/
def ContextVar.set (s : State) (v : Nat) (x : Value) :
    Except Err Nat × State :=
  let p := getContext s
  match p.2.ctxs p.1 with
  | none => (Except.error Err.badRef, p.2)
  | some cd =>
    let t := p.2.nextTok
    (Except.ok t,
     { p.2 with
         ctxs := fun i =>
           if i = p.1 then some ⟨Pmap.set cd.data v x, cd.prevCtx⟩
           else p.2.ctxs i,
         toks := fun i =>
           if i = t then some ⟨p.1, v, cd.data v, false⟩ else p.2.toks i,
         nextTok := t + 1 })

/-- Model of `ContextVar.reset`: the three guard checks in source order (used,
wrong variable, wrong context — the last comparing context identity with
the result of `_get_context`), then restoration: `data.delete(var)` when
the recorded prior value is `MISSING`, else `data.set(var, prior)`;
finally the token is marked used. -/
def ContextVar.reset (s : State) (v : Nat) (t : Nat) :
    Except Err Unit × State :=
  match s.toks t with
  | none => (Except.error Err.badRef, s)
  | some td =>
    if td.used then (Except.error Err.tokenUsedErr, s)
    else if td.var ≠ v then (Except.error Err.tokenWrongVarErr, s)
    else
      let p := getContext s
      if td.context ≠ p.1 then (Except.error Err.tokenWrongCtxErr, p.2)
      else
        match p.2.ctxs td.context with
        | none => (Except.error Err.badRef, p.2)
        | some cd =>
          match td.oldValue with
          | none =>
            match Pmap.delete cd.data td.var with
            | none => (Except.error Err.keyErr, p.2)
            | some m =>
              (Except.ok (),
               { p.2 with
                   ctxs := fun i =>
                     if i = td.context then some ⟨m, cd.prevCtx⟩
                     else p.2.ctxs i,
                   toks := fun i =>
                     if i = t then some ⟨td.context, td.var, td.oldValue, true⟩
                     else p.2.toks i })
          | some ov =>
            (Except.ok (),
             { p.2 with
                 ctxs := fun i =>
                   if i = td.context then some ⟨Pmap.set cd.data td.var ov, cd.prevCtx⟩
                   else p.2.ctxs i,
                 toks := fun i =>
                   if i = t then some ⟨td.context, td.var, td.oldValue, true⟩
                   else p.2.toks i })

/-!
Programs over the public surface.  A `Stmt` is one public call; a
`Prog` is a callable body: a sequence of statements ending in a value
return.  `srun` carries the callable passed to `Context.run`; `sraise`
models a callable raising an arbitrary exception.
-/
mutual
inductive Stmt where
  | snewvar (name : String) (d : Option Value)
  | snewctx
  | scopy (c : Nat)
  | scopyctx
  | sget (v : Nat) (fb : Option Value)
  | sset (v : Nat) (x : Value)
  | sreset (v : Nat) (t : Nat)
  | srun (c : Nat) (body : Prog)
  | sraise (n : Nat)
inductive Prog where
  | ret (x : Value)
  | seq (st : Stmt) (p : Prog)
end

/-!
One public call per `Stmt`.  The `srun` case is `Context.run` verbatim:
guard on `_prev_context`, record the previous context (`_get_context()`),
install `self`, run the body, and in the `finally` block restore
`_set_context(self._prev_context)` and clear `self._prev_context = None`
whether the body returned or raised.
-/
mutual
def execStmt : Stmt → State → Except Err Value × State
  | Stmt.snewvar name d, s =>
    let q := ContextVar.new s name d
    (Except.ok q.1, q.2)
  | Stmt.snewctx, s =>
    let q := Context.new s
    (Except.ok q.1, q.2)
  | Stmt.scopy c, s => Context.copy s c
  | Stmt.scopyctx, s =>
    let p := getContext s
    Context.copy p.2 p.1
  | Stmt.sget v fb, s => ContextVar.get s v fb
  | Stmt.sset v x, s => ContextVar.set s v x
  | Stmt.sreset v t, s =>
    let q := ContextVar.reset s v t
    (q.1.map (fun _ => 0), q.2)
  | Stmt.sraise n, s => (Except.error (Err.userRaise n), s)
  | Stmt.srun c body, s =>
    match s.ctxs c with
    | none => (Except.error Err.badRef, s)
    | some cd =>
      match cd.prevCtx with
      | some _ => (Except.error Err.alreadyEnteredErr, s)
      | none =>
        let p := getContext s
        let s3 := setContext (setPrev p.2 c (some p.1)) (some c)
        let q := execProg body s3
        let pv := match q.2.ctxs c with
                  | some cd2 => cd2.prevCtx
                  | none => none
        (q.1, setPrev (setContext q.2 pv) c none)
def execProg : Prog → State → Except Err Value × State
  | Prog.ret x, s => (Except.ok x, s)
  | Prog.seq st p, s =>
    match execStmt st s with
    | (Except.ok _, s1) => execProg p s1
    | (Except.error e, s1) => (Except.error e, s1)
end

instance : DecidableEq (Except Err Value) := fun a b =>
  match a, b with
  | Except.ok x, Except.ok y =>
    if h : x = y then isTrue (by rw [h])
    else isFalse (by intro hc; cases hc; exact h rfl)
  | Except.error e, Except.error f =>
    if h : e = f then isTrue (by rw [h])
    else isFalse (by intro hc; cases hc; exact h rfl)
  | Except.ok _, Except.error _ => isFalse (by intro hc; cases hc)
  | Except.error _, Except.ok _ => isFalse (by intro hc; cases hc)

/-- Heap well-formedness: ids at or above the fresh-id counters are
unallocated, and every token references an already-allocated context. -/
def DomInv (s : State) : Prop :=
  (∀ i, s.nextCtx ≤ i → s.ctxs i = none) ∧
  (∀ i, s.nextTok ≤ i → s.toks i = none) ∧
  (∀ i, s.nextVar ≤ i → s.vars i = none) ∧
  (∀ t td, s.toks t = some td → td.context < s.nextCtx)

/-- The registry slot, when filled, holds an allocated context. -/
def ActiveOk (s : State) : Prop :=
  ∀ c, s.activeSlot = some c → (s.ctxs c).isSome = true

/-- Every stored `_prev_context` reference is an allocated context. -/
def PrevOk (s : State) : Prop :=
  ∀ c cd, s.ctxs c = some cd → ∀ pc, cd.prevCtx = some pc →
    (s.ctxs pc).isSome = true

/-- The token invariant behind claim C9: an unused token whose recorded
prior value is the MISSING sentinel always finds its variable bound in
its context (so the `delete` branch of `reset` cannot hit `KeyError`),
and there is at most one such token per (context, variable) pair. -/
def TokInv (s : State) : Prop :=
  (∀ t td, s.toks t = some td → td.used = false → td.oldValue = none →
    ∃ cd, s.ctxs td.context = some cd ∧ (cd.data td.var).isSome = true) ∧
  (∀ t1 td1 t2 td2, s.toks t1 = some td1 → s.toks t2 = some td2 →
    td1.used = false → td2.used = false →
    td1.oldValue = none → td2.oldValue = none →
    td1.context = td2.context → td1.var = td2.var → t1 = t2)

/-- All state invariants together. -/
def WF (s : State) : Prop := DomInv s ∧ ActiveOk s ∧ PrevOk s ∧ TokInv s


/-- What any public call preserves about contexts: they are never
deallocated, the context counter never decreases, and an entered
context stays entered with the same recorded previous context. -/
def Pres (s1 s2 : State) : Prop :=
  s1.nextCtx ≤ s2.nextCtx ∧
  (∀ c cd, s1.ctxs c = some cd → ∃ cd2, s2.ctxs c = some cd2) ∧
  (∀ c cd x, s1.ctxs c = some cd → cd.prevCtx = some x →
    ∃ cd2, s2.ctxs c = some cd2 ∧ cd2.prevCtx = some x)

/-- Programs consisting only of `set`/`reset` calls (the operations the
isolation clause of the spec quantifies over). -/
def onlySetReset : Prog → Prop
  | Prog.ret _ => True
  | Prog.seq (Stmt.sset _ _) p => onlySetReset p
  | Prog.seq (Stmt.sreset _ _) p => onlySetReset p
  | Prog.seq _ _ => False

def isIdentStart (ch : Char) : Bool := ch.isAlpha || ch = '_'

def isIdentChar (ch : Char) : Bool := ch.isAlphanum || ch = '_'

/-- Spec-side predicate for comparison with the code: the spec's
"non-empty identifier" (first character a letter or underscore, the
rest letters, digits or underscores). -/
def isPyIdentifier (str : String) : Bool :=
  match str.data with
  | [] => false
  | ch :: rest => isIdentStart ch && rest.all isIdentChar

/-- Witness state for C4: two distinct contexts (ids 0 and 1) with equal
bindings; the token was created against context 0 while context 1 is
active. -/
def resetWitnessState : State :=
  { vars := fun i => if i = 0 then some ⟨r"x", none⟩ else none,
    ctxs := fun i =>
      if i = 0 then some ⟨fun j => if j = 0 then some 5 else none, none⟩
      else if i = 1 then some ⟨fun j => if j = 0 then some 5 else none, none⟩
      else none,
    toks := fun i => if i = 0 then some ⟨0, 0, some 3, false⟩ else none,
    activeSlot := some 1,
    nextVar := 1, nextCtx := 2, nextTok := 1 }

def progW : Prog :=
  Prog.seq (Stmt.snewvar (r"x") none) (Prog.seq (Stmt.sset 0 5) (Prog.ret 0))

theorem wf_initState : WF initState := by
  unfold WF DomInv ActiveOk PrevOk TokInv
  refine ⟨⟨?_, ?_, ?_, ?_⟩, ?_, ?_, ?_, ?_⟩ <;> intros <;> simp_all [initState]

theorem Pres.id (s : State) : Pres s s :=
  ⟨Nat.le_refl _, fun c cd h => ⟨cd, h⟩, fun c cd x h hx => ⟨cd, h, hx⟩⟩

theorem Pres.trans {s1 s2 s3 : State} (h1 : Pres s1 s2) (h2 : Pres s2 s3) :
    Pres s1 s3 := by
  obtain ⟨a1, b1, c1⟩ := h1
  obtain ⟨a2, b2, c2⟩ := h2
  refine ⟨Nat.le_trans a1 a2, ?_, ?_⟩
  · intro c cd h
    obtain ⟨cd2, h2a⟩ := b1 c cd h
    exact b2 c cd2 h2a
  · intro c cd x h hx
    obtain ⟨cd2, h2a, hx2⟩ := c1 c cd x h hx
    exact c2 c cd2 x h2a hx2

/-- Dichotomy for `_get_context`: it either finds the slot filled and changes nothing, or
finds it empty and installs a fresh empty context. -/
theorem getContext_eq (s : State) :
    (s.activeSlot = some (getContext s).1 ∧ (getContext s).2 = s) ∨
    (s.activeSlot = none ∧ (getContext s).1 = s.nextCtx ∧
     (getContext s).2 =
       { s with
           ctxs := fun i =>
             if i = s.nextCtx then some ⟨fun _ => none, none⟩ else s.ctxs i,
           activeSlot := some s.nextCtx,
           nextCtx := s.nextCtx + 1 }) := by
  cases hs : s.activeSlot with
  | some a => exact Or.inl ⟨by simp [getContext, hs], by simp [getContext, hs]⟩
  | none => exact Or.inr ⟨rfl, by simp [getContext, hs], by simp [getContext, hs]⟩

theorem getContext_activeSlot (s : State) :
    (getContext s).2.activeSlot = some (getContext s).1 := by
  rcases getContext_eq s with ⟨h1, h2⟩ | ⟨h1, h2, h3⟩
  · rw [h2, h1]
  · rw [h3, h2]

theorem getContext_toks (s : State) : (getContext s).2.toks = s.toks := by
  rcases getContext_eq s with ⟨h1, h2⟩ | ⟨h1, h2, h3⟩ <;> simp [*]

theorem getContext_vars (s : State) : (getContext s).2.vars = s.vars := by
  rcases getContext_eq s with ⟨h1, h2⟩ | ⟨h1, h2, h3⟩ <;> simp [*]

theorem getContext_nextTok (s : State) :
    (getContext s).2.nextTok = s.nextTok := by
  rcases getContext_eq s with ⟨h1, h2⟩ | ⟨h1, h2, h3⟩ <;> simp [*]

theorem getContext_nextVar (s : State) :
    (getContext s).2.nextVar = s.nextVar := by
  rcases getContext_eq s with ⟨h1, h2⟩ | ⟨h1, h2, h3⟩ <;> simp [*]

theorem getContext_nextCtx_le (s : State) :
    s.nextCtx ≤ (getContext s).2.nextCtx := by
  rcases getContext_eq s with ⟨h1, h2⟩ | ⟨h1, h2, h3⟩ <;> simp [*]

theorem getContext_ctxs_pres {s : State} {c : Nat} {cd : CtxData}
    (hd : DomInv s) (h : s.ctxs c = some cd) :
    (getContext s).2.ctxs c = some cd := by
  rcases getContext_eq s with ⟨h1, h2⟩ | ⟨h1, h2, h3⟩
  · rw [h2]; exact h
  · rw [h3]
    have hne : c ≠ s.nextCtx := by
      intro he
      rw [he, hd.1 s.nextCtx (Nat.le_refl _)] at h
      cases h
    simpa [hne] using h

theorem getContext_isSome {s : State} (hd : DomInv s) (ha : ActiveOk s) :
    ((getContext s).2.ctxs (getContext s).1).isSome = true := by
  rcases getContext_eq s with ⟨h1, h2⟩ | ⟨h1, h2, h3⟩
  · rw [h2]; exact ha _ h1
  · rw [h3, h2]; simp

theorem getContext_lt {s : State} (hd : DomInv s) (ha : ActiveOk s) :
    (getContext s).1 < (getContext s).2.nextCtx := by
  rcases getContext_eq s with ⟨h1, h2⟩ | ⟨h1, h2, h3⟩
  · rw [h2]
    have hb := ha _ h1
    by_contra hge
    rw [hd.1 _ (Nat.le_of_not_lt hge)] at hb
    cases hb
  · rw [h3, h2]; simp

theorem getContext_wf {s : State} (hw : WF s) : WF (getContext s).2 := by
  obtain ⟨hd, ha, hp, ht⟩ := hw
  rcases getContext_eq s with ⟨h1, h2⟩ | ⟨h1, h2, h3⟩
  · rw [h2]; exact ⟨hd, ha, hp, ht⟩
  · rw [h3]
    refine ⟨⟨?_, ?_, ?_, ?_⟩, ?_, ?_, ?_, ?_⟩
    · intro i hi
      simp only at hi
      have hne : i ≠ s.nextCtx := by omega
      have hle : s.nextCtx ≤ i := by omega
      simp [hne, hd.1 i hle]
    · intro i hi; exact hd.2.1 i hi
    · intro i hi; exact hd.2.2.1 i hi
    · intro t td h
      simp only at h ⊢
      exact Nat.lt_succ_of_lt (hd.2.2.2 t td h)
    · intro c hc
      simp only [Option.some.injEq] at hc
      simp [← hc]
    · intro c cd hc pc hpc
      simp only at hc ⊢
      by_cases he : c = s.nextCtx
      · subst he
        rw [if_pos rfl] at hc
        cases hc
        simp at hpc
      · rw [if_neg he] at hc
        have hps := hp c cd hc pc hpc
        by_cases he2 : pc = s.nextCtx
        · simp [he2]
        · simpa [he2] using hps
    · intro t td h hu ho
      simp only at h ⊢
      obtain ⟨cd, hcd, hb⟩ := ht.1 t td h hu ho
      have hne : td.context ≠ s.nextCtx := by
        intro he
        rw [he, hd.1 s.nextCtx (Nat.le_refl _)] at hcd
        cases hcd
      exact ⟨cd, by simp [hne, hcd], hb⟩
    · intro t1 td1 t2 td2 h1' h2'
      simp only at h1' h2'
      exact ht.2 t1 td1 t2 td2 h1' h2'

theorem getContext_pres {s : State} (hd : DomInv s) : Pres s (getContext s).2 := by
  refine ⟨getContext_nextCtx_le s, ?_, ?_⟩
  · intro c cd h
    exact ⟨cd, getContext_ctxs_pres hd h⟩
  · intro c cd x h hx
    exact ⟨cd, getContext_ctxs_pres hd h, hx⟩

theorem getContext_idem (s : State) :
    getContext (getContext s).2 = ((getContext s).1, (getContext s).2) := by
  have h := getContext_activeSlot s
  rcases getContext_eq (getContext s).2 with ⟨h1, h2⟩ | ⟨h1, h2, h3⟩
  · rw [h, Option.some.injEq] at h1
    have : (getContext (getContext s).2).1 = (getContext s).1 := h1.symm
    exact Prod.ext this h2
  · rw [h] at h1
    cases h1

theorem get_eq_bound {s : State} {v : Nat} {cd : CtxData} {x : Value}
    (hc : (getContext s).2.ctxs (getContext s).1 = some cd)
    (hb : cd.data v = some x) (fb : Option Value) :
    ContextVar.get s v fb = (Except.ok x, (getContext s).2) := by
  simp only [ContextVar.get, hc, hb]

theorem get_eq_fallback {s : State} {v : Nat} {cd : CtxData} {f : Value}
    (hc : (getContext s).2.ctxs (getContext s).1 = some cd)
    (hb : cd.data v = none) :
    ContextVar.get s v (some f) = (Except.ok f, (getContext s).2) := by
  simp only [ContextVar.get, hc, hb]

theorem get_eq_default {s : State} {v : Nat} {cd : CtxData} {vd : VarData} {d : Value}
    (hc : (getContext s).2.ctxs (getContext s).1 = some cd)
    (hb : cd.data v = none) (hv : s.vars v = some vd) (hdf : vd.default = some d) :
    ContextVar.get s v none = (Except.ok d, (getContext s).2) := by
  simp only [ContextVar.get, hc, hb, getContext_vars, hv, hdf]

theorem get_eq_lookupErr {s : State} {v : Nat} {cd : CtxData} {vd : VarData}
    (hc : (getContext s).2.ctxs (getContext s).1 = some cd)
    (hb : cd.data v = none) (hv : s.vars v = some vd) (hdf : vd.default = none) :
    ContextVar.get s v none = (Except.error Err.lookupErr, (getContext s).2) := by
  simp only [ContextVar.get, hc, hb, getContext_vars, hv, hdf]

theorem set_eq_ok {s : State} {cd : CtxData} (v : Nat) (x : Value)
    (hc : (getContext s).2.ctxs (getContext s).1 = some cd) :
    ContextVar.set s v x =
      (Except.ok (getContext s).2.nextTok,
       { (getContext s).2 with
           ctxs := fun i =>
             if i = (getContext s).1 then some ⟨Pmap.set cd.data v x, cd.prevCtx⟩
             else (getContext s).2.ctxs i,
           toks := fun i =>
             if i = (getContext s).2.nextTok
             then some ⟨(getContext s).1, v, cd.data v, false⟩
             else (getContext s).2.toks i,
           nextTok := (getContext s).2.nextTok + 1 }) := by
  simp only [ContextVar.set, hc]

theorem reset_eq_badtok {s : State} {v t : Nat} (h : s.toks t = none) :
    ContextVar.reset s v t = (Except.error Err.badRef, s) := by
  unfold ContextVar.reset
  rw [h]

theorem reset_eq_used {s : State} {v t : Nat} {td : TokData}
    (h : s.toks t = some td) (hu : td.used = true) :
    ContextVar.reset s v t = (Except.error Err.tokenUsedErr, s) := by
  simp only [ContextVar.reset, h]
  simp [hu]

theorem reset_eq_wrongVar {s : State} {v t : Nat} {td : TokData}
    (h : s.toks t = some td) (hu : td.used = false) (hv : td.var ≠ v) :
    ContextVar.reset s v t = (Except.error Err.tokenWrongVarErr, s) := by
  simp only [ContextVar.reset, h]
  simp [hu, hv]

theorem reset_eq_wrongCtx {s : State} {v t : Nat} {td : TokData}
    (h : s.toks t = some td) (hu : td.used = false) (hv : td.var = v)
    (hcx : td.context ≠ (getContext s).1) :
    ContextVar.reset s v t = (Except.error Err.tokenWrongCtxErr, (getContext s).2) := by
  simp only [ContextVar.reset, h]
  simp [hu, hv, hcx]

theorem reset_eq_ok_missing {s : State} {v t : Nat} {td : TokData} {cd : CtxData}
    {m : Pmap}
    (h : s.toks t = some td) (hu : td.used = false) (hv : td.var = v)
    (hcx : td.context = (getContext s).1)
    (hcd : (getContext s).2.ctxs td.context = some cd)
    (ho : td.oldValue = none) (hdel : Pmap.delete cd.data td.var = some m) :
    ContextVar.reset s v t =
      (Except.ok (),
       { (getContext s).2 with
           ctxs := fun i =>
             if i = td.context then some ⟨m, cd.prevCtx⟩
             else (getContext s).2.ctxs i,
           toks := fun i =>
             if i = t then some ⟨td.context, td.var, td.oldValue, true⟩
             else (getContext s).2.toks i }) := by
  simp only [ContextVar.reset, h]
  simp only [hu, Bool.false_eq_true, if_false, ne_eq]
  rw [if_neg (by simp [hv])]
  rw [if_neg (by simp [hcx])]
  simp only [hcd, ho, hdel]

theorem reset_eq_ok_bound {s : State} {v t : Nat} {td : TokData} {cd : CtxData}
    {ov : Value}
    (h : s.toks t = some td) (hu : td.used = false) (hv : td.var = v)
    (hcx : td.context = (getContext s).1)
    (hcd : (getContext s).2.ctxs td.context = some cd)
    (ho : td.oldValue = some ov) :
    ContextVar.reset s v t =
      (Except.ok (),
       { (getContext s).2 with
           ctxs := fun i =>
             if i = td.context then some ⟨Pmap.set cd.data td.var ov, cd.prevCtx⟩
             else (getContext s).2.ctxs i,
           toks := fun i =>
             if i = t then some ⟨td.context, td.var, td.oldValue, true⟩
             else (getContext s).2.toks i }) := by
  simp only [ContextVar.reset, h]
  simp only [hu, Bool.false_eq_true, if_false, ne_eq]
  rw [if_neg (by simp [hv])]
  rw [if_neg (by simp [hcx])]
  simp only [hcd, ho]

theorem copy_eq_ok {s : State} {c : Nat} {cd : CtxData} (hc : s.ctxs c = some cd) :
    Context.copy s c =
      (Except.ok s.nextCtx,
       { s with
           ctxs := fun i => if i = s.nextCtx then some ⟨cd.data, none⟩ else s.ctxs i,
           nextCtx := s.nextCtx + 1 }) := by
  simp only [Context.copy, hc]

theorem set_eq_badRef {s : State} {v : Nat} (x : Value)
    (hc : (getContext s).2.ctxs (getContext s).1 = none) :
    ContextVar.set s v x = (Except.error Err.badRef, (getContext s).2) := by
  simp only [ContextVar.set, hc]

theorem Pmap.delete_eq {m : Pmap} {k : Nat} {y : Value} (h : m k = some y) :
    Pmap.delete m k = some (fun i => if i = k then none else m i) := by
  unfold Pmap.delete
  rw [h]

theorem get_props (s : State) (v : Nat) (fb : Option Value) :
    (ContextVar.get s v fb).2 = (getContext s).2 ∧
    (ContextVar.get s v fb).1 ≠ Except.error Err.keyErr := by
  cases hA : (getContext s).2.ctxs (getContext s).1 with
  | none =>
    rw [show ContextVar.get s v fb = (Except.error Err.badRef, (getContext s).2) by
      simp only [ContextVar.get, hA]]
    exact ⟨rfl, by simp⟩
  | some cd =>
    cases hB : cd.data v with
    | some y =>
      rw [get_eq_bound hA hB fb]
      exact ⟨rfl, by simp⟩
    | none =>
      cases fb with
      | some f =>
        rw [get_eq_fallback hA hB]
        exact ⟨rfl, by simp⟩
      | none =>
        cases hC : s.vars v with
        | none =>
          rw [show ContextVar.get s v none = (Except.error Err.badRef, (getContext s).2) by
            simp only [ContextVar.get, hA, hB, getContext_vars, hC]]
          exact ⟨rfl, by simp⟩
        | some vd =>
          cases hD : vd.default with
          | some d =>
            rw [get_eq_default hA hB hC hD]
            exact ⟨rfl, by simp⟩
          | none =>
            rw [get_eq_lookupErr hA hB hC hD]
            exact ⟨rfl, by simp⟩

theorem get_wf (s : State) (v : Nat) (fb : Option Value) (hw : WF s) :
    WF (ContextVar.get s v fb).2 ∧ Pres s (ContextVar.get s v fb).2 ∧
    (ContextVar.get s v fb).1 ≠ Except.error Err.keyErr := by
  obtain ⟨h2, h1⟩ := get_props s v fb
  rw [h2]
  exact ⟨getContext_wf hw, getContext_pres hw.1, h1⟩

theorem newVar_wf (s : State) (name : String) (d : Option Value) (hw : WF s) :
    WF (ContextVar.new s name d).2 ∧ Pres s (ContextVar.new s name d).2 := by
  obtain ⟨hd, ha, hp, ht⟩ := hw
  unfold ContextVar.new
  refine ⟨⟨⟨?_, ?_, ?_, ?_⟩, ?_, ?_, ?_, ?_⟩, Nat.le_refl _, ?_, ?_⟩
  · intro i hi; exact hd.1 i hi
  · intro i hi; exact hd.2.1 i hi
  · intro i hi
    simp only at hi ⊢
    have hne : i ≠ s.nextVar := by omega
    have hle : s.nextVar ≤ i := by omega
    simp [hne, hd.2.2.1 i hle]
  · intro t td h; exact hd.2.2.2 t td h
  · intro c hc; exact ha c hc
  · intro c cd hc pc hpc; exact hp c cd hc pc hpc
  · intro t td h hu ho; exact ht.1 t td h hu ho
  · intro t1 td1 t2 td2 h1 h2; exact ht.2 t1 td1 t2 td2 h1 h2
  · intro c cd h; exact ⟨cd, h⟩
  · intro c cd x h hx; exact ⟨cd, h, hx⟩

theorem newCtx_wf (s : State) (hw : WF s) :
    WF (Context.new s).2 ∧ Pres s (Context.new s).2 := by
  obtain ⟨hd, ha, hp, ht⟩ := hw
  unfold Context.new
  have hctx : ∀ c cd, s.ctxs c = some cd → c ≠ s.nextCtx := by
    intro c cd h he
    rw [he, hd.1 s.nextCtx (Nat.le_refl _)] at h
    cases h
  refine ⟨⟨⟨?_, ?_, ?_, ?_⟩, ?_, ?_, ?_, ?_⟩, Nat.le_succ _, ?_, ?_⟩
  · intro i hi
    simp only at hi ⊢
    have hne : i ≠ s.nextCtx := by omega
    have hle : s.nextCtx ≤ i := by omega
    simp [hne, hd.1 i hle]
  · intro i hi; exact hd.2.1 i hi
  · intro i hi; exact hd.2.2.1 i hi
  · intro t td h
    simp only at h ⊢
    exact Nat.lt_succ_of_lt (hd.2.2.2 t td h)
  · intro c hc
    simp only at hc ⊢
    have hs := ha c hc
    by_cases he : c = s.nextCtx
    · simp [he]
    · simpa [he] using hs
  · intro c cd hc pc hpc
    simp only at hc ⊢
    by_cases he : c = s.nextCtx
    · rw [he, if_pos rfl] at hc
      cases hc
      simp at hpc
    · rw [if_neg he] at hc
      have hps := hp c cd hc pc hpc
      by_cases he2 : pc = s.nextCtx
      · simp [he2]
      · simpa [he2] using hps
  · intro t td h hu ho
    simp only at h ⊢
    obtain ⟨cd, hcd, hb⟩ := ht.1 t td h hu ho
    exact ⟨cd, by simp [hctx td.context cd hcd, hcd], hb⟩
  · intro t1 td1 t2 td2 h1 h2
    simp only at h1 h2
    exact ht.2 t1 td1 t2 td2 h1 h2
  · intro c cd h
    simp only
    exact ⟨cd, by simp [hctx c cd h, h]⟩
  · intro c cd x h hx
    simp only
    exact ⟨cd, by simp [hctx c cd h, h], hx⟩

theorem copy_wf (s : State) (c : Nat) (hw : WF s) :
    WF (Context.copy s c).2 ∧ Pres s (Context.copy s c).2 ∧
    (Context.copy s c).1 ≠ Except.error Err.keyErr := by
  obtain ⟨hd, ha, hp, ht⟩ := hw
  have hctx : ∀ c2 cd, s.ctxs c2 = some cd → c2 ≠ s.nextCtx := by
    intro c2 cd h he
    rw [he, hd.1 s.nextCtx (Nat.le_refl _)] at h
    cases h
  cases hc : s.ctxs c with
  | none =>
    rw [show Context.copy s c = (Except.error Err.badRef, s) by
      unfold Context.copy; rw [hc]]
    exact ⟨⟨hd, ha, hp, ht⟩, Pres.id s, by simp⟩
  | some cd =>
    rw [copy_eq_ok hc]
    refine ⟨⟨⟨?_, ?_, ?_, ?_⟩, ?_, ?_, ?_, ?_⟩, ⟨Nat.le_succ _, ?_, ?_⟩, by simp⟩
    · intro i hi
      simp only at hi ⊢
      have hne : i ≠ s.nextCtx := by omega
      have hle : s.nextCtx ≤ i := by omega
      simp [hne, hd.1 i hle]
    · intro i hi; exact hd.2.1 i hi
    · intro i hi; exact hd.2.2.1 i hi
    · intro t td h
      simp only at h ⊢
      exact Nat.lt_succ_of_lt (hd.2.2.2 t td h)
    · intro c2 hc2
      simp only at hc2 ⊢
      have hs := ha c2 hc2
      by_cases he : c2 = s.nextCtx
      · simp [he]
      · simpa [he] using hs
    · intro c2 cd2 hc2 pc hpc
      simp only at hc2 ⊢
      by_cases he : c2 = s.nextCtx
      · rw [he, if_pos rfl] at hc2
        cases hc2
        simp at hpc
      · rw [if_neg he] at hc2
        have hps := hp c2 cd2 hc2 pc hpc
        by_cases he2 : pc = s.nextCtx
        · simp [he2]
        · simpa [he2] using hps
    · intro t td h hu ho
      simp only at h ⊢
      obtain ⟨cd2, hcd2, hb⟩ := ht.1 t td h hu ho
      exact ⟨cd2, by simp [hctx td.context cd2 hcd2, hcd2], hb⟩
    · intro t1 td1 t2 td2 h1 h2
      simp only at h1 h2
      exact ht.2 t1 td1 t2 td2 h1 h2
    · intro c2 cd2 h
      simp only
      exact ⟨cd2, by simp [hctx c2 cd2 h, h]⟩
    · intro c2 cd2 x h hx
      simp only
      exact ⟨cd2, by simp [hctx c2 cd2 h, h], hx⟩

theorem set_wf (s : State) (v x : Nat) (hw : WF s) :
    WF (ContextVar.set s v x).2 ∧ Pres s (ContextVar.set s v x).2 ∧
    (ContextVar.set s v x).1 ≠ Except.error Err.keyErr := by
  obtain ⟨hd, ha, hp, ht⟩ := getContext_wf hw
  have hpres := getContext_pres hw.1
  have hlt := getContext_lt hw.1 hw.2.1
  have hact := getContext_activeSlot s
  cases hc : (getContext s).2.ctxs (getContext s).1 with
  | none =>
    rw [set_eq_badRef x hc]
    exact ⟨⟨hd, ha, hp, ht⟩, hpres, by simp⟩
  | some cd =>
    rw [set_eq_ok v x hc]
    refine ⟨⟨⟨?_, ?_, ?_, ?_⟩, ?_, ?_, ?_, ?_⟩,
      Pres.trans hpres ⟨Nat.le_refl _, ?_, ?_⟩, by simp⟩
    · intro i hi
      simp only at hi ⊢
      have hne : i ≠ (getContext s).1 := by omega
      simp [hne, hd.1 i hi]
    · intro i hi
      simp only at hi ⊢
      have hne : i ≠ (getContext s).2.nextTok := by omega
      have hle : (getContext s).2.nextTok ≤ i := by omega
      simp [hne, hd.2.1 i hle]
    · intro i hi
      exact hd.2.2.1 i hi
    · intro t td h
      simp only at h ⊢
      by_cases he : t = (getContext s).2.nextTok
      · rw [he, if_pos rfl] at h
        cases h
        simpa using hlt
      · rw [if_neg he] at h
        exact hd.2.2.2 t td h
    · intro c hcs
      simp only at hcs ⊢
      rw [hact, Option.some.injEq] at hcs
      subst hcs
      simp
    · intro c cd2 hc2 pc hpc
      simp only at hc2 ⊢
      by_cases he : c = (getContext s).1
      · rw [he, if_pos rfl] at hc2
        cases hc2
        simp only at hpc
        have hps := hp _ _ hc pc hpc
        by_cases he2 : pc = (getContext s).1
        · simp [he2]
        · simpa [he2] using hps
      · rw [if_neg he] at hc2
        have hps := hp _ _ hc2 pc hpc
        by_cases he2 : pc = (getContext s).1
        · simp [he2]
        · simpa [he2] using hps
    · intro t td h hu ho
      simp only at h ⊢
      by_cases he : t = (getContext s).2.nextTok
      · rw [he, if_pos rfl] at h
        cases h
        simp only at ho
        refine ⟨⟨Pmap.set cd.data v x, cd.prevCtx⟩, by simp, ?_⟩
        simp [Pmap.set]
      · rw [if_neg he] at h
        obtain ⟨cd2, hcd2, hb⟩ := ht.1 t td h hu ho
        by_cases hec : td.context = (getContext s).1
        · rw [hec, hc] at hcd2
          injection hcd2 with hcd2
          refine ⟨⟨Pmap.set cd.data v x, cd.prevCtx⟩, by simp [hec], ?_⟩
          by_cases hev : td.var = v
          · simp [Pmap.set, hev]
          · simp only [Pmap.set]
            rw [if_neg hev]
            rw [← hcd2] at hb
            exact hb
        · exact ⟨cd2, by simp [hec, hcd2], hb⟩
    · intro t1 td1 t2 td2 h1 h2 hu1 hu2 ho1 ho2 hcc hvv
      simp only at h1 h2
      by_cases he1 : t1 = (getContext s).2.nextTok <;>
        by_cases he2 : t2 = (getContext s).2.nextTok
      · rw [he1, he2]
      · rw [he1, if_pos rfl] at h1
        cases h1
        rw [if_neg he2] at h2
        simp only at ho1 hcc hvv
        obtain ⟨cd2, hcd2, hb⟩ := ht.1 t2 td2 h2 hu2 ho2
        rw [← hcc, hc] at hcd2
        injection hcd2 with hcd2
        rw [← hcd2, ← hvv, ho1] at hb
        simp at hb
      · rw [he2, if_pos rfl] at h2
        cases h2
        rw [if_neg he1] at h1
        simp only at ho2 hcc hvv
        obtain ⟨cd2, hcd2, hb⟩ := ht.1 t1 td1 h1 hu1 ho1
        rw [hcc, hc] at hcd2
        injection hcd2 with hcd2
        rw [← hcd2, hvv, ho2] at hb
        simp at hb
      · rw [if_neg he1] at h1
        rw [if_neg he2] at h2
        exact ht.2 t1 td1 t2 td2 h1 h2 hu1 hu2 ho1 ho2 hcc hvv
    · intro c cd2 h
      simp only
      by_cases he : c = (getContext s).1
      · exact ⟨⟨Pmap.set cd.data v x, cd.prevCtx⟩, by simp [he]⟩
      · exact ⟨cd2, by simp [he, h]⟩
    · intro c cd2 x2 h hx
      simp only
      by_cases he : c = (getContext s).1
      · rw [he, hc] at h
        injection h with h
        refine ⟨⟨Pmap.set cd.data v x, cd.prevCtx⟩, by simp [he], ?_⟩
        rw [← h] at hx
        exact hx
      · exact ⟨cd2, by simp [he, h], hx⟩

theorem reset_wf (s : State) (v t : Nat) (hw : WF s) :
    WF (ContextVar.reset s v t).2 ∧ Pres s (ContextVar.reset s v t).2 ∧
    (ContextVar.reset s v t).1 ≠ Except.error Err.keyErr := by
  obtain ⟨hd, ha, hp, ht⟩ := getContext_wf hw
  have hpres := getContext_pres hw.1
  have hact := getContext_activeSlot s
  cases h : s.toks t with
  | none =>
    rw [reset_eq_badtok h]
    exact ⟨hw, Pres.id s, by simp⟩
  | some td =>
    have hg : (getContext s).2.toks t = some td := by
      rw [getContext_toks]; exact h
    have htlt : t < (getContext s).2.nextTok := by
      by_contra hge
      rw [hd.2.1 t (Nat.le_of_not_lt hge)] at hg
      cases hg
    have hclt : td.context < (getContext s).2.nextCtx := hd.2.2.2 t td hg
    cases hu : td.used with
    | true =>
      rw [reset_eq_used h hu]
      exact ⟨hw, Pres.id s, by simp⟩
    | false =>
      by_cases hv : td.var = v
      case neg =>
        rw [reset_eq_wrongVar h hu hv]
        exact ⟨hw, Pres.id s, by simp⟩
      case pos =>
        by_cases hcx : td.context = (getContext s).1
        case neg =>
          rw [reset_eq_wrongCtx h hu hv hcx]
          exact ⟨⟨hd, ha, hp, ht⟩, hpres, by simp⟩
        case pos =>
          cases ho : td.oldValue with
          | none =>
            obtain ⟨cd, hcd, hb⟩ := ht.1 t td hg hu ho
            obtain ⟨y, hy⟩ := Option.isSome_iff_exists.mp hb
            have hdel := Pmap.delete_eq hy
            rw [reset_eq_ok_missing h hu hv hcx hcd ho hdel]
            refine ⟨⟨⟨?_, ?_, ?_, ?_⟩, ?_, ?_, ?_, ?_⟩,
              Pres.trans hpres ⟨Nat.le_refl _, ?_, ?_⟩, by simp⟩
            · intro i hi
              simp only at hi ⊢
              have hne : i ≠ td.context := by omega
              simp [hne, hd.1 i hi]
            · intro i hi
              simp only at hi ⊢
              have hne : i ≠ t := by omega
              simp [hne, hd.2.1 i hi]
            · intro i hi
              exact hd.2.2.1 i hi
            · intro t2 td2 h2
              simp only at h2 ⊢
              by_cases he : t2 = t
              · rw [he, if_pos rfl] at h2
                cases h2
                simpa using hclt
              · rw [if_neg he] at h2
                exact hd.2.2.2 t2 td2 h2
            · intro c hcs
              simp only at hcs ⊢
              rw [hact, Option.some.injEq] at hcs
              subst hcs
              rw [← hcx]
              simp
            · intro c cd2 hc2 pc hpc
              simp only at hc2 ⊢
              by_cases he : c = td.context
              · rw [he, if_pos rfl] at hc2
                cases hc2
                simp only at hpc
                have hps := hp _ _ hcd pc hpc
                by_cases he2 : pc = td.context
                · simp [he2]
                · simpa [he2] using hps
              · rw [if_neg he] at hc2
                have hps := hp _ _ hc2 pc hpc
                by_cases he2 : pc = td.context
                · simp [he2]
                · simpa [he2] using hps
            · intro t2 td2 h2 hu2 ho2
              simp only at h2 ⊢
              by_cases he : t2 = t
              · rw [he, if_pos rfl] at h2
                cases h2
                simp only at hu2
                cases hu2
              · rw [if_neg he] at h2
                obtain ⟨cd2, hcd2, hb2⟩ := ht.1 t2 td2 h2 hu2 ho2
                by_cases hec : td2.context = td.context
                · rw [hec, hcd] at hcd2
                  injection hcd2 with hcd2
                  refine ⟨⟨fun i => if i = td.var then none else cd.data i, cd.prevCtx⟩,
                    by simp [hec], ?_⟩
                  by_cases hev : td2.var = td.var
                  · exfalso
                    exact he (ht.2 t2 td2 t td h2 hg hu2 hu ho2 ho
                      (by rw [hec]) (by rw [hev]))
                  · rw [← hcd2] at hb2
                    simpa [hev] using hb2
                · exact ⟨cd2, by simp [hec, hcd2], hb2⟩
            · intro t1 td1 t2 td2 h1 h2 hu1 hu2 ho1 ho2 hcc hvv
              simp only at h1 h2
              by_cases he1 : t1 = t
              · rw [he1, if_pos rfl] at h1
                cases h1
                simp only at hu1
                cases hu1
              · by_cases he2 : t2 = t
                · rw [he2, if_pos rfl] at h2
                  cases h2
                  simp only at hu2
                  cases hu2
                · rw [if_neg he1] at h1
                  rw [if_neg he2] at h2
                  exact ht.2 t1 td1 t2 td2 h1 h2 hu1 hu2 ho1 ho2 hcc hvv
            · intro c cd2 h2
              simp only
              by_cases he : c = td.context
              · exact ⟨⟨fun i => if i = td.var then none else cd.data i, cd.prevCtx⟩,
                  by simp [he]⟩
              · exact ⟨cd2, by simp [he, h2]⟩
            · intro c cd2 x2 h2 hx
              simp only
              by_cases he : c = td.context
              · rw [he, hcd] at h2
                injection h2 with h2
                refine ⟨⟨fun i => if i = td.var then none else cd.data i, cd.prevCtx⟩,
                  by simp [he], ?_⟩
                rw [← h2] at hx
                exact hx
              · exact ⟨cd2, by simp [he, h2], hx⟩
          | some ov =>
            have hb2 : ((getContext s).2.ctxs td.context).isSome = true := by
              rw [hcx]
              exact getContext_isSome hw.1 hw.2.1
            obtain ⟨cd, hcd⟩ := Option.isSome_iff_exists.mp hb2
            rw [reset_eq_ok_bound h hu hv hcx hcd ho]
            refine ⟨⟨⟨?_, ?_, ?_, ?_⟩, ?_, ?_, ?_, ?_⟩,
              Pres.trans hpres ⟨Nat.le_refl _, ?_, ?_⟩, by simp⟩
            · intro i hi
              simp only at hi ⊢
              have hne : i ≠ td.context := by omega
              simp [hne, hd.1 i hi]
            · intro i hi
              simp only at hi ⊢
              have hne : i ≠ t := by omega
              simp [hne, hd.2.1 i hi]
            · intro i hi
              exact hd.2.2.1 i hi
            · intro t2 td2 h2
              simp only at h2 ⊢
              by_cases he : t2 = t
              · rw [he, if_pos rfl] at h2
                cases h2
                simpa using hclt
              · rw [if_neg he] at h2
                exact hd.2.2.2 t2 td2 h2
            · intro c hcs
              simp only at hcs ⊢
              rw [hact, Option.some.injEq] at hcs
              subst hcs
              rw [← hcx]
              simp
            · intro c cd2 hc2 pc hpc
              simp only at hc2 ⊢
              by_cases he : c = td.context
              · rw [he, if_pos rfl] at hc2
                cases hc2
                simp only at hpc
                have hps := hp _ _ hcd pc hpc
                by_cases he2 : pc = td.context
                · simp [he2]
                · simpa [he2] using hps
              · rw [if_neg he] at hc2
                have hps := hp _ _ hc2 pc hpc
                by_cases he2 : pc = td.context
                · simp [he2]
                · simpa [he2] using hps
            · intro t2 td2 h2 hu2 ho2
              simp only at h2 ⊢
              by_cases he : t2 = t
              · rw [he, if_pos rfl] at h2
                cases h2
                simp only at hu2
                cases hu2
              · rw [if_neg he] at h2
                obtain ⟨cd2, hcd2, hb3⟩ := ht.1 t2 td2 h2 hu2 ho2
                by_cases hec : td2.context = td.context
                · rw [hec, hcd] at hcd2
                  injection hcd2 with hcd2
                  refine ⟨⟨Pmap.set cd.data td.var ov, cd.prevCtx⟩, by simp [hec], ?_⟩
                  by_cases hev : td2.var = td.var
                  · simp [Pmap.set, hev]
                  · rw [← hcd2] at hb3
                    simpa [Pmap.set, hev] using hb3
                · exact ⟨cd2, by simp [hec, hcd2], hb3⟩
            · intro t1 td1 t2 td2 h1 h2 hu1 hu2 ho1 ho2 hcc hvv
              simp only at h1 h2
              by_cases he1 : t1 = t
              · rw [he1, if_pos rfl] at h1
                cases h1
                simp only at hu1
                cases hu1
              · by_cases he2 : t2 = t
                · rw [he2, if_pos rfl] at h2
                  cases h2
                  simp only at hu2
                  cases hu2
                · rw [if_neg he1] at h1
                  rw [if_neg he2] at h2
                  exact ht.2 t1 td1 t2 td2 h1 h2 hu1 hu2 ho1 ho2 hcc hvv
            · intro c cd2 h2
              simp only
              by_cases he : c = td.context
              · exact ⟨⟨Pmap.set cd.data td.var ov, cd.prevCtx⟩, by simp [he]⟩
              · exact ⟨cd2, by simp [he, h2]⟩
            · intro c cd2 x2 h2 hx
              simp only
              by_cases he : c = td.context
              · rw [he, hcd] at h2
                injection h2 with h2
                refine ⟨⟨Pmap.set cd.data td.var ov, cd.prevCtx⟩, by simp [he], ?_⟩
                rw [← h2] at hx
                exact hx
              · exact ⟨cd2, by simp [he, h2], hx⟩

theorem setContext_ctxs (s : State) (slot : Option Nat) :
    (setContext s slot).ctxs = s.ctxs := rfl

theorem setContext_activeSlot (s : State) (slot : Option Nat) :
    (setContext s slot).activeSlot = slot := rfl

theorem setPrev_activeSlot (s : State) (c : Nat) (pv : Option Nat) :
    (setPrev s c pv).activeSlot = s.activeSlot := rfl

theorem setPrev_ctxs_self {s : State} {c : Nat} {cd : CtxData} (pv : Option Nat)
    (h : s.ctxs c = some cd) :
    (setPrev s c pv).ctxs c = some ⟨cd.data, pv⟩ := by
  simp [setPrev, h]

theorem setPrev_ctxs_other {s : State} {c c2 : Nat} (pv : Option Nat)
    (h : c2 ≠ c) : (setPrev s c pv).ctxs c2 = s.ctxs c2 := by
  simp [setPrev, h]

theorem enter_wf {s : State} {c g : Nat} {cd : CtxData} (hw : WF s)
    (hc : s.ctxs c = some cd) (hg : (s.ctxs g).isSome = true) :
    WF (setContext (setPrev s c (some g)) (some c)) := by
  obtain ⟨hd, ha, hp, ht⟩ := hw
  have hclt : c < s.nextCtx := by
    by_contra hge
    rw [hd.1 c (Nat.le_of_not_lt hge)] at hc
    cases hc
  have hcself : (setContext (setPrev s c (some g)) (some c)).ctxs c
      = some ⟨cd.data, some g⟩ := by
    rw [setContext_ctxs]
    exact setPrev_ctxs_self _ hc
  have hcc : ∀ c2, c2 ≠ c →
      (setContext (setPrev s c (some g)) (some c)).ctxs c2 = s.ctxs c2 := by
    intro c2 hne
    rw [setContext_ctxs]
    exact setPrev_ctxs_other _ hne
  have hsome : ∀ c2, (s.ctxs c2).isSome = true →
      ((setContext (setPrev s c (some g)) (some c)).ctxs c2).isSome = true := by
    intro c2 h2
    by_cases he : c2 = c
    · rw [he, hcself]; rfl
    · rw [hcc c2 he]; exact h2
  refine ⟨⟨?_, ?_, ?_, ?_⟩, ?_, ?_, ?_, ?_⟩
  · intro i hi
    have hi2 : s.nextCtx ≤ i := hi
    have hne : i ≠ c := by omega
    rw [hcc i hne]
    exact hd.1 i hi2
  · intro i hi
    exact hd.2.1 i hi
  · intro i hi
    exact hd.2.2.1 i hi
  · intro t td h
    exact hd.2.2.2 t td h
  · intro c2 hc2
    have hc3 : some c = some c2 := hc2
    injection hc3 with hc3
    rw [← hc3, hcself]
    rfl
  · intro c2 cd2 h2 pc hpc
    by_cases he : c2 = c
    · rw [he, hcself] at h2
      injection h2 with h2
      rw [← h2] at hpc
      simp only at hpc
      injection hpc with hpc
      rw [← hpc]
      exact hsome g hg
    · rw [hcc c2 he] at h2
      exact hsome pc (hp c2 cd2 h2 pc hpc)
  · intro t td h hu ho
    have h2 : s.toks t = some td := h
    obtain ⟨cd0, hcd0, hb⟩ := ht.1 t td h2 hu ho
    by_cases he : td.context = c
    · rw [he, hc] at hcd0
      injection hcd0 with hcd0
      refine ⟨⟨cd.data, some g⟩, by rw [he]; exact hcself, ?_⟩
      rw [← hcd0] at hb
      exact hb
    · exact ⟨cd0, by rw [hcc td.context he]; exact hcd0, hb⟩
  · intro t1 td1 t2 td2 h1 h2
    exact ht.2 t1 td1 t2 td2 h1 h2

theorem exit_wf {s : State} {c : Nat} {cd : CtxData} {pv : Option Nat} (hw : WF s)
    (hc : s.ctxs c = some cd) (hpv : cd.prevCtx = pv) :
    WF (setPrev (setContext s pv) c none) := by
  subst hpv
  obtain ⟨hd, ha, hp, ht⟩ := hw
  have hcself : (setPrev (setContext s cd.prevCtx) c none).ctxs c
      = some ⟨cd.data, none⟩ := setPrev_ctxs_self _ hc
  have hcc : ∀ c2, c2 ≠ c →
      (setPrev (setContext s cd.prevCtx) c none).ctxs c2 = s.ctxs c2 := by
    intro c2 hne
    exact setPrev_ctxs_other _ hne
  have hsome : ∀ c2, (s.ctxs c2).isSome = true →
      ((setPrev (setContext s cd.prevCtx) c none).ctxs c2).isSome = true := by
    intro c2 h2
    by_cases he : c2 = c
    · rw [he, hcself]; rfl
    · rw [hcc c2 he]; exact h2
  have hclt : c < s.nextCtx := by
    by_contra hge
    rw [hd.1 c (Nat.le_of_not_lt hge)] at hc
    cases hc
  refine ⟨⟨?_, ?_, ?_, ?_⟩, ?_, ?_, ?_, ?_⟩
  · intro i hi
    have hi2 : s.nextCtx ≤ i := hi
    have hne : i ≠ c := by omega
    rw [hcc i hne]
    exact hd.1 i hi2
  · intro i hi
    exact hd.2.1 i hi
  · intro i hi
    exact hd.2.2.1 i hi
  · intro t td h
    exact hd.2.2.2 t td h
  · intro c2 hc2
    have hc3 : cd.prevCtx = some c2 := hc2
    exact hsome c2 (hp c cd hc c2 hc3)
  · intro c2 cd2 h2 pc hpc
    by_cases he : c2 = c
    · rw [he, hcself] at h2
      injection h2 with h2
      rw [← h2] at hpc
      simp only at hpc
      cases hpc
    · rw [hcc c2 he] at h2
      exact hsome pc (hp c2 cd2 h2 pc hpc)
  · intro t td h hu ho
    have h2 : s.toks t = some td := h
    obtain ⟨cd0, hcd0, hb⟩ := ht.1 t td h2 hu ho
    by_cases he : td.context = c
    · rw [he, hc] at hcd0
      injection hcd0 with hcd0
      refine ⟨⟨cd.data, none⟩, by rw [he]; exact hcself, ?_⟩
      rw [← hcd0] at hb
      exact hb
    · exact ⟨cd0, by rw [hcc td.context he]; exact hcd0, hb⟩
  · intro t1 td1 t2 td2 h1 h2
    exact ht.2 t1 td1 t2 td2 h1 h2

theorem run_eq_noctx {s : State} {c : Nat} {body : Prog} (hc : s.ctxs c = none) :
    execStmt (Stmt.srun c body) s = (Except.error Err.badRef, s) := by
  simp only [execStmt, hc]

theorem run_eq_entered {s : State} {c q0 : Nat} {cd : CtxData} {body : Prog}
    (hc : s.ctxs c = some cd) (hpc : cd.prevCtx = some q0) :
    execStmt (Stmt.srun c body) s = (Except.error Err.alreadyEnteredErr, s) := by
  simp only [execStmt, hc, hpc]

theorem run_eq_go {s : State} {c : Nat} {cd : CtxData} {body : Prog}
    (hc : s.ctxs c = some cd) (hpc : cd.prevCtx = none) :
    execStmt (Stmt.srun c body) s =
      ((execProg body
          (setContext (setPrev (getContext s).2 c (some (getContext s).1)) (some c))).1,
       setPrev
         (setContext
           (execProg body
             (setContext (setPrev (getContext s).2 c (some (getContext s).1)) (some c))).2
           (match
              (execProg body
                (setContext (setPrev (getContext s).2 c (some (getContext s).1))
                  (some c))).2.ctxs c with
            | some cd2 => cd2.prevCtx
            | none => none))
         c none) := by
  simp only [execStmt, hc, hpc]

theorem run_go_wf (s : State) (c : Nat) (cd : CtxData) (body : Prog)
    (hw : WF s) (hc : s.ctxs c = some cd) (hpc : cd.prevCtx = none)
    (hbody : ∀ s2, WF s2 →
      WF (execProg body s2).2 ∧ Pres s2 (execProg body s2).2 ∧
      (execProg body s2).1 ≠ Except.error Err.keyErr) :
    WF (execStmt (Stmt.srun c body) s).2 ∧
    Pres s (execStmt (Stmt.srun c body) s).2 ∧
    (execStmt (Stmt.srun c body) s).1 ≠ Except.error Err.keyErr := by
  rw [run_eq_go hc hpc]
  have hw2 := getContext_wf hw
  have hc2 : (getContext s).2.ctxs c = some cd := getContext_ctxs_pres hw.1 hc
  have hg := getContext_isSome hw.1 hw.2.1
  have hw3 := enter_wf hw2 hc2 hg
  obtain ⟨hw4, hpres34, hne4⟩ := hbody _ hw3
  have hs3c : (setContext (setPrev (getContext s).2 c (some (getContext s).1))
      (some c)).ctxs c = some ⟨cd.data, some (getContext s).1⟩ := by
    rw [setContext_ctxs]
    exact setPrev_ctxs_self _ hc2
  obtain ⟨cd2, hc4, hprev4⟩ := hpres34.2.2 c ⟨cd.data, some (getContext s).1⟩
    (getContext s).1 hs3c rfl
  have hpv : (match
      (execProg body
        (setContext (setPrev (getContext s).2 c (some (getContext s).1))
          (some c))).2.ctxs c with
      | some cd2 => cd2.prevCtx
      | none => none) = some (getContext s).1 := by
    rw [hc4]
    exact hprev4
  rw [hpv]
  refine ⟨exit_wf hw4 hc4 hprev4, ⟨?_, ?_, ?_⟩, hne4⟩
  · calc s.nextCtx ≤ (getContext s).2.nextCtx := getContext_nextCtx_le s
    _ ≤ _ := hpres34.1
  · intro c0 cd0 h0
    by_cases he : c0 = c
    · subst he
      exact ⟨⟨cd2.data, none⟩, setPrev_ctxs_self _ hc4⟩
    · have h1 : (getContext s).2.ctxs c0 = some cd0 := getContext_ctxs_pres hw.1 h0
      have h2 : (setContext (setPrev (getContext s).2 c (some (getContext s).1))
          (some c)).ctxs c0 = some cd0 := by
        rw [setContext_ctxs, setPrev_ctxs_other _ he]
        exact h1
      obtain ⟨cd0b, h3⟩ := hpres34.2.1 c0 cd0 h2
      refine ⟨cd0b, ?_⟩
      rw [setPrev_ctxs_other _ he, setContext_ctxs]
      exact h3
  · intro c0 cd0 x0 h0 hx0
    have hne : c0 ≠ c := by
      intro he
      rw [he, hc] at h0
      injection h0 with h0
      rw [← h0] at hx0
      rw [hpc] at hx0
      cases hx0
    have h1 : (getContext s).2.ctxs c0 = some cd0 := getContext_ctxs_pres hw.1 h0
    have h2 : (setContext (setPrev (getContext s).2 c (some (getContext s).1))
        (some c)).ctxs c0 = some cd0 := by
      rw [setContext_ctxs, setPrev_ctxs_other _ hne]
      exact h1
    obtain ⟨cd0b, h3, h4⟩ := hpres34.2.2 c0 cd0 x0 h2 hx0
    refine ⟨cd0b, ?_, h4⟩
    rw [setPrev_ctxs_other _ hne, setContext_ctxs]
    exact h3

/-!
The main preservation theorem: every public call, and every program over
the public surface, keeps the state well-formed, never deallocates or
re-enters contexts behind the caller's back, and never surfaces the
`KeyError` of the persistent map's `delete`.
-/
mutual
theorem execStmt_wf (st : Stmt) (s : State) (hw : WF s) :
    WF (execStmt st s).2 ∧ Pres s (execStmt st s).2 ∧
    (execStmt st s).1 ≠ Except.error Err.keyErr := by
  cases st with
  | snewvar name d =>
    have h := newVar_wf s name d hw
    exact ⟨h.1, h.2, by simp [execStmt]⟩
  | snewctx =>
    have h := newCtx_wf s hw
    exact ⟨h.1, h.2, by simp [execStmt]⟩
  | scopy c =>
    have h := copy_wf s c hw
    exact ⟨h.1, h.2.1, h.2.2⟩
  | scopyctx =>
    have h := copy_wf (getContext s).2 (getContext s).1 (getContext_wf hw)
    exact ⟨h.1, Pres.trans (getContext_pres hw.1) h.2.1, h.2.2⟩
  | sget v fb =>
    have h := get_wf s v fb hw
    exact ⟨h.1, h.2.1, h.2.2⟩
  | sset v x =>
    have h := set_wf s v x hw
    exact ⟨h.1, h.2.1, h.2.2⟩
  | sreset v t =>
    have h := reset_wf s v t hw
    refine ⟨h.1, h.2.1, ?_⟩
    have h2 := h.2.2
    simp only [execStmt]
    cases hr : (ContextVar.reset s v t).1 with
    | ok u => simp [Except.map]
    | error e =>
      rw [hr] at h2
      simp only [Except.map]
      intro hcon
      injection hcon with hcon
      exact h2 (by rw [hcon])
  | sraise n =>
    exact ⟨hw, Pres.id s, by simp [execStmt]⟩
  | srun c body =>
    cases hc : s.ctxs c with
    | none =>
      rw [run_eq_noctx hc]
      exact ⟨hw, Pres.id s, by simp⟩
    | some cd =>
      cases hpc : cd.prevCtx with
      | some q0 =>
        rw [run_eq_entered hc hpc]
        exact ⟨hw, Pres.id s, by simp⟩
      | none =>
        exact run_go_wf s c cd body hw hc hpc
          (fun s2 hw2 => execProg_wf body s2 hw2)
theorem execProg_wf (pr : Prog) (s : State) (hw : WF s) :
    WF (execProg pr s).2 ∧ Pres s (execProg pr s).2 ∧
    (execProg pr s).1 ≠ Except.error Err.keyErr := by
  cases pr with
  | ret x =>
    exact ⟨hw, Pres.id s, by simp [execProg]⟩
  | seq st p =>
    have h1 := execStmt_wf st s hw
    cases hr : execStmt st s with
    | mk r s1 =>
      rw [hr] at h1
      cases r with
      | ok u =>
        have h2 := execProg_wf p s1 h1.1
        have he : execProg (Prog.seq st p) s = execProg p s1 := by
          simp only [execProg, hr]
        rw [he]
        exact ⟨h2.1, Pres.trans h1.2.1 h2.2.1, h2.2.2⟩
      | error e =>
        have he : execProg (Prog.seq st p) s = (Except.error e, s1) := by
          simp only [execProg, hr]
        rw [he]
        exact ⟨h1.1, h1.2.1, h1.2.2⟩
end

theorem getContext_of_active {s : State} {c : Nat} (h : s.activeSlot = some c) :
    getContext s = (c, s) := by
  unfold getContext
  rw [h]

/-- C1: with the active context resolving to snapshot `cd`, `v.set(x)`
succeeds and returns a Token recording the active context, the variable
itself and the value bound to `v` immediately before the call (`none`
is the unbound/MISSING marker), and a subsequent `v.get()` in the same
context returns exactly `x`. -/
theorem set_get_roundtrip (s : State) (v x : Nat) (cd : CtxData)
    (hc : (getContext s).2.ctxs (getContext s).1 = some cd) :
    ∃ t s1,
      ContextVar.set s v x = (Except.ok t, s1) ∧
      s1.toks t = some ⟨(getContext s).1, v, cd.data v, false⟩ ∧
      ContextVar.get s1 v none = (Except.ok x, s1) := by
  have hset := set_eq_ok v x hc
  have hact1 : (ContextVar.set s v x).2.activeSlot = some (getContext s).1 := by
    rw [hset]
    exact getContext_activeSlot s
  have hget1 := getContext_of_active hact1
  have hctx1 : (ContextVar.set s v x).2.ctxs (getContext s).1 =
      some ⟨Pmap.set cd.data v x, cd.prevCtx⟩ := by
    rw [hset]
    simp
  refine ⟨(getContext s).2.nextTok, (ContextVar.set s v x).2, ?_, ?_, ?_⟩
  · rw [hset]
  · rw [hset]
    simp
  · have hb : Pmap.set cd.data v x v = some x := by simp [Pmap.set]
    have hres := get_eq_bound (by rw [hget1]; exact hctx1) hb none
    rw [hget1] at hres
    exact hres

theorem set_get_roundtrip_witness :
    ∃ t s1,
      ContextVar.set initState 0 5 = (Except.ok t, s1) ∧
      s1.toks t = some ⟨(getContext initState).1, 0, none, false⟩ ∧
      ContextVar.get s1 0 none = (Except.ok 5, s1) :=
  set_get_roundtrip initState 0 5 ⟨fun _ => none, none⟩ rfl

/-- C7: `get` resolves in this order: bound value in the active context
first (even when a fallback was supplied), then the call-site fallback,
then the constructor default, else it fails with `LookupError`. -/
theorem get_resolution_order (s : State) (v : Nat) (fb : Option Value)
    (cd : CtxData)
    (hc : (getContext s).2.ctxs (getContext s).1 = some cd) :
    (∀ x, cd.data v = some x →
      ContextVar.get s v fb = (Except.ok x, (getContext s).2)) ∧
    (∀ f, cd.data v = none → fb = some f →
      ContextVar.get s v fb = (Except.ok f, (getContext s).2)) ∧
    (∀ vd d, cd.data v = none → fb = none → s.vars v = some vd →
      vd.default = some d →
      ContextVar.get s v fb = (Except.ok d, (getContext s).2)) ∧
    (∀ vd, cd.data v = none → fb = none → s.vars v = some vd →
      vd.default = none →
      ContextVar.get s v fb = (Except.error Err.lookupErr, (getContext s).2)) := by
  refine ⟨?_, ?_, ?_, ?_⟩
  · intro x hb
    exact get_eq_bound hc hb fb
  · intro f hb hf
    rw [hf]
    exact get_eq_fallback hc hb
  · intro vd d hb hf hv hd
    rw [hf]
    exact get_eq_default hc hb hv hd
  · intro vd hb hf hv hd
    rw [hf]
    exact get_eq_lookupErr hc hb hv hd

theorem get_resolution_order_witness :
    ContextVar.get (ContextVar.new initState (r"x") (some 7)).2 0 none =
      (Except.ok 7, (getContext (ContextVar.new initState (r"x") (some 7)).2).2) :=
  (get_resolution_order (ContextVar.new initState (r"x") (some 7)).2 0 none
    ⟨fun _ => none, none⟩ rfl).2.2.1 ⟨r"x", some 7⟩ 7 rfl rfl rfl rfl

/-- C4: `reset` applies its three guard checks in source order — a used
token always fails with the already-used condition regardless of the
other checks; an unused token of a different variable fails with the
wrong-variable condition regardless of the context; an unused token of
the right variable created against a context other than (by identity)
the currently active one fails with the wrong-context condition. -/
theorem reset_check_precedence (s : State) (v t : Nat) (td : TokData)
    (h : s.toks t = some td) :
    (td.used = true →
      ContextVar.reset s v t = (Except.error Err.tokenUsedErr, s)) ∧
    (td.used = false → td.var ≠ v →
      ContextVar.reset s v t = (Except.error Err.tokenWrongVarErr, s)) ∧
    (td.used = false → td.var = v → td.context ≠ (getContext s).1 →
      ContextVar.reset s v t = (Except.error Err.tokenWrongCtxErr, (getContext s).2)) :=
  ⟨fun hu => reset_eq_used h hu,
   fun hu hv => reset_eq_wrongVar h hu hv,
   fun hu hv hcx => reset_eq_wrongCtx h hu hv hcx⟩

theorem reset_check_precedence_witness :
    resetWitnessState.ctxs 0 = resetWitnessState.ctxs 1 ∧
    ContextVar.reset resetWitnessState 0 0 =
      (Except.error Err.tokenWrongCtxErr, (getContext resetWitnessState).2) :=
  ⟨rfl,
   (reset_check_precedence resetWitnessState 0 0 ⟨0, 0, some 3, false⟩ rfl).2.2
     rfl rfl (by decide)⟩

/-- C10: when `reset` fails any of its three guard checks, the token
heap is untouched (in particular the token stays unused) and every
context keeps its snapshot unchanged. -/
theorem reset_failure_frame (s : State) (v t : Nat) (td : TokData)
    (hd : DomInv s) (h : s.toks t = some td)
    (hfail : td.used = true ∨ td.var ≠ v ∨ td.context ≠ (getContext s).1) :
    (∃ e, (ContextVar.reset s v t).1 = Except.error e) ∧
    (ContextVar.reset s v t).2.toks = s.toks ∧
    (∀ c cd, s.ctxs c = some cd → (ContextVar.reset s v t).2.ctxs c = some cd) := by
  cases hu : td.used with
  | true =>
    rw [reset_eq_used h hu]
    exact ⟨⟨Err.tokenUsedErr, rfl⟩, rfl, fun c cd hcc => hcc⟩
  | false =>
    by_cases hv : td.var = v
    · have hcx : td.context ≠ (getContext s).1 := by
        rcases hfail with h1 | h2 | h3
        · rw [hu] at h1; cases h1
        · exact absurd hv h2
        · exact h3
      rw [reset_eq_wrongCtx h hu hv hcx]
      exact ⟨⟨Err.tokenWrongCtxErr, rfl⟩, getContext_toks s,
        fun c cd hcc => getContext_ctxs_pres hd hcc⟩
    · rw [reset_eq_wrongVar h hu hv]
      exact ⟨⟨Err.tokenWrongVarErr, rfl⟩, rfl, fun c cd hcc => hcc⟩

theorem reset_failure_frame_witness :
    (∃ e, (ContextVar.reset resetWitnessState 0 0).1 = Except.error e) ∧
    (ContextVar.reset resetWitnessState 0 0).2.toks = resetWitnessState.toks ∧
    (∀ c cd, resetWitnessState.ctxs c = some cd →
      (ContextVar.reset resetWitnessState 0 0).2.ctxs c = some cd) := by
  refine reset_failure_frame resetWitnessState 0 0 ⟨0, 0, some 3, false⟩
    ⟨?_, ?_, ?_, ?_⟩ rfl (Or.inr (Or.inr (by decide)))
  · intro i hi
    have hi2 : 2 ≤ i := hi
    simp only [resetWitnessState]
    have h0 : i ≠ 0 := by omega
    have h1 : i ≠ 1 := by omega
    simp [h0, h1]
  · intro i hi
    have hi2 : 1 ≤ i := hi
    simp only [resetWitnessState]
    have h0 : i ≠ 0 := by omega
    simp [h0]
  · intro i hi
    have hi2 : 1 ≤ i := hi
    simp only [resetWitnessState]
    have h0 : i ≠ 0 := by omega
    simp [h0]
  · intro t td h
    simp only [resetWitnessState] at h
    by_cases h0 : t = 0
    · rw [h0] at h
      simp only [if_pos rfl] at h
      injection h with h
      rw [← h]
      decide
    · rw [if_neg h0] at h
      cases h

/-- C2: with the active context resolving to snapshot `cd`, `t = v.set(x)`
followed by `v.reset(t)` restores the binding of `v` exactly to its
prior state — the whole snapshot is pointwise the one from before the
`set`, so a previously unbound `v` is unbound again (key deleted) — and
the token ends up marked used. -/
theorem token_reset_roundtrip (s : State) (v x : Nat) (cd : CtxData)
    (hc : (getContext s).2.ctxs (getContext s).1 = some cd) :
    ∃ t s1 s2,
      ContextVar.set s v x = (Except.ok t, s1) ∧
      ContextVar.reset s1 v t = (Except.ok (), s2) ∧
      (∃ cd2, s2.ctxs (getContext s).1 = some cd2 ∧
        ∀ w, cd2.data w = cd.data w) ∧
      s2.toks t = some ⟨(getContext s).1, v, cd.data v, true⟩ := by
  have hset := set_eq_ok v x hc
  have hact1 : (ContextVar.set s v x).2.activeSlot = some (getContext s).1 := by
    rw [hset]
    exact getContext_activeSlot s
  have hget1 := getContext_of_active hact1
  have htok1 : (ContextVar.set s v x).2.toks (getContext s).2.nextTok =
      some ⟨(getContext s).1, v, cd.data v, false⟩ := by
    rw [hset]
    simp
  have hctx1 : (ContextVar.set s v x).2.ctxs (getContext s).1 =
      some ⟨Pmap.set cd.data v x, cd.prevCtx⟩ := by
    rw [hset]
    simp
  have hcd2 : (getContext (ContextVar.set s v x).2).2.ctxs (getContext s).1 =
      some ⟨Pmap.set cd.data v x, cd.prevCtx⟩ := by
    rw [hget1]
    exact hctx1
  cases hdv : cd.data v with
  | none =>
    have htd : (ContextVar.set s v x).2.toks (getContext s).2.nextTok =
        some ⟨(getContext s).1, v, none, false⟩ := by
      rw [htok1, hdv]
    have hb : Pmap.set cd.data v x v = some x := by simp [Pmap.set]
    have hdel := Pmap.delete_eq hb
    have hreset := reset_eq_ok_missing htd rfl rfl (by rw [hget1]) hcd2 rfl hdel
    rw [hget1] at hreset
    rw [hset] at hreset
    refine ⟨_, _, _, hset, hreset, ?_, ?_⟩
    · refine ⟨⟨fun i => if i = v then none else Pmap.set cd.data v x i,
        cd.prevCtx⟩, ?_, ?_⟩
      · simp
      · intro w
        by_cases hwv : w = v
        · simp [hwv, hdv]
        · simp [hwv, Pmap.set]
    · rw [hdv]
      simp
  | some ov =>
    have htd : (ContextVar.set s v x).2.toks (getContext s).2.nextTok =
        some ⟨(getContext s).1, v, some ov, false⟩ := by
      rw [htok1, hdv]
    have hreset := reset_eq_ok_bound htd rfl rfl (by rw [hget1]) hcd2 rfl
    rw [hget1] at hreset
    rw [hset] at hreset
    refine ⟨_, _, _, hset, hreset, ?_, ?_⟩
    · refine ⟨⟨Pmap.set (Pmap.set cd.data v x) v ov, cd.prevCtx⟩, ?_, ?_⟩
      · simp
      · intro w
        by_cases hwv : w = v
        · simp [hwv, hdv, Pmap.set]
        · simp [hwv, Pmap.set]
    · rw [hdv]
      simp

theorem token_reset_roundtrip_witness :
    ∃ t s1 s2,
      ContextVar.set initState 0 5 = (Except.ok t, s1) ∧
      ContextVar.reset s1 0 t = (Except.ok (), s2) ∧
      (∃ cd2, s2.ctxs (getContext initState).1 = some cd2 ∧
        ∀ w, cd2.data w = (none : Option Value)) ∧
      s2.toks t = some ⟨(getContext initState).1, 0, none, true⟩ :=
  token_reset_roundtrip initState 0 5 ⟨fun _ => none, none⟩ rfl

/-- C3: when `run`'s non-reentrancy guard passes, the callable runs with
the receiver installed as active, the result — the returned value or the
propagated failure — is exactly the callable's own outcome, and on both
exit paths the previously active context is restored and the entered
marker is cleared. -/
theorem run_restores_on_all_paths (s : State) (c : Nat) (cd : CtxData)
    (body : Prog) (hw : WF s) (hc : s.ctxs c = some cd)
    (hpc : cd.prevCtx = none) :
    (setContext (setPrev (getContext s).2 c (some (getContext s).1))
      (some c)).activeSlot = some c ∧
    (execStmt (Stmt.srun c body) s).1 =
      (execProg body
        (setContext (setPrev (getContext s).2 c (some (getContext s).1))
          (some c))).1 ∧
    (execStmt (Stmt.srun c body) s).2.activeSlot = some (getContext s).1 ∧
    (∃ cd2, (execStmt (Stmt.srun c body) s).2.ctxs c = some cd2 ∧
      cd2.prevCtx = none) := by
  have hw2 := getContext_wf hw
  have hc2 : (getContext s).2.ctxs c = some cd := getContext_ctxs_pres hw.1 hc
  have hg := getContext_isSome hw.1 hw.2.1
  have hw3 := enter_wf hw2 hc2 hg
  obtain ⟨hw4, hpres34, hne4⟩ := execProg_wf body _ hw3
  have hs3c : (setContext (setPrev (getContext s).2 c (some (getContext s).1))
      (some c)).ctxs c = some ⟨cd.data, some (getContext s).1⟩ := by
    rw [setContext_ctxs]
    exact setPrev_ctxs_self _ hc2
  obtain ⟨cd2, hc4, hprev4⟩ := hpres34.2.2 c ⟨cd.data, some (getContext s).1⟩
    (getContext s).1 hs3c rfl
  have hpv : (match
      (execProg body
        (setContext (setPrev (getContext s).2 c (some (getContext s).1))
          (some c))).2.ctxs c with
      | some cd2 => cd2.prevCtx
      | none => none) = some (getContext s).1 := by
    rw [hc4]
    exact hprev4
  rw [run_eq_go hc hpc, hpv]
  refine ⟨rfl, rfl, rfl, ⟨cd2.data, none⟩, ?_, rfl⟩
  exact setPrev_ctxs_self _ hc4

theorem run_restores_witness :
    (execStmt (Stmt.srun 0 (Prog.seq (Stmt.sraise 3) (Prog.ret 0)))
      (getContext initState).2).2.activeSlot = some 0 ∧
    (execStmt (Stmt.srun 0 (Prog.seq (Stmt.sraise 3) (Prog.ret 0)))
      (getContext initState).2).1 = Except.error (Err.userRaise 3) :=
  ⟨(run_restores_on_all_paths (getContext initState).2 0 ⟨fun _ => none, none⟩
      (Prog.seq (Stmt.sraise 3) (Prog.ret 0)) (getContext_wf wf_initState)
      rfl rfl).2.2.1,
   by decide⟩

/-- C5 (amended): `Context.run` fails immediately with the
already-entered condition, leaving the state entirely unchanged, exactly
when the receiver's entered marker (`_prev_context`) is set — that is,
while a `run` on this very instance is still in progress.  When the
marker is clear the guard does not fire, even if the receiver happens to
be installed as the active context (see the counterexample), and `run`
proceeds to invoke the callable. -/
theorem run_already_entered (s : State) (c : Nat) (cd : CtxData)
    (body : Prog) (hc : s.ctxs c = some cd) :
    (∀ q0, cd.prevCtx = some q0 →
      execStmt (Stmt.srun c body) s = (Except.error Err.alreadyEnteredErr, s)) ∧
    (cd.prevCtx = none →
      (execStmt (Stmt.srun c body) s).1 =
        (execProg body
          (setContext (setPrev (getContext s).2 c (some (getContext s).1))
            (some c))).1) :=
  ⟨fun q0 hpc => run_eq_entered hc hpc,
   fun hpc => by rw [run_eq_go hc hpc]⟩

theorem run_already_entered_witness :
    execStmt (Stmt.srun 0 (Prog.ret 7))
      { vars := fun _ => none,
        ctxs := fun i => if i = 0 then some ⟨fun _ => none, some 0⟩ else none,
        toks := fun _ => none,
        activeSlot := some 0, nextVar := 0, nextCtx := 1, nextTok := 0 } =
      (Except.error Err.alreadyEnteredErr,
       { vars := fun _ => none,
         ctxs := fun i => if i = 0 then some ⟨fun _ => none, some 0⟩ else none,
         toks := fun _ => none,
         activeSlot := some 0, nextVar := 0, nextCtx := 1, nextTok := 0 }) :=
  (run_already_entered _ 0 ⟨fun _ => none, some 0⟩ (Prog.ret 7) rfl).1 0 rfl

/-- C5 counterexample: the lazily created default context is installed
as the active context of the calling execution unit, yet calling `run`
on it succeeds — the guard tests the entered marker, not active-ness,
so "fails whenever installed as active anywhere" is false on the code. -/
theorem run_on_active_succeeds_cex :
    (getContext initState).2.activeSlot = some 0 ∧
    (execStmt (Stmt.srun 0 (Prog.ret 7)) (getContext initState).2).1 =
      Except.ok 7 := by
  exact ⟨rfl, rfl⟩

theorem getContext_ne {s : State} {c0 : Nat} {cd0 : CtxData} (hd : DomInv s)
    (hc : s.ctxs c0 = some cd0) (hna : s.activeSlot ≠ some c0) :
    (getContext s).1 ≠ c0 := by
  rcases getContext_eq s with ⟨h1, h2⟩ | ⟨h1, h2, h3⟩
  · intro he
    rw [he] at h1
    exact hna h1
  · intro he
    rw [h2] at he
    rw [← he, hd.1 s.nextCtx (Nat.le_refl _)] at hc
    cases hc

theorem set_ctxs_frame {s : State} (v x : Nat) {c0 : Nat} {cd0 : CtxData}
    (hw : WF s) (hc : s.ctxs c0 = some cd0) (hna : s.activeSlot ≠ some c0) :
    (ContextVar.set s v x).2.ctxs c0 = some cd0 ∧
    (ContextVar.set s v x).2.activeSlot ≠ some c0 := by
  have hne := getContext_ne hw.1 hc hna
  have hpc : (getContext s).2.ctxs c0 = some cd0 := getContext_ctxs_pres hw.1 hc
  have hact := getContext_activeSlot s
  cases hc2 : (getContext s).2.ctxs (getContext s).1 with
  | none =>
    rw [set_eq_badRef x hc2]
    refine ⟨hpc, ?_⟩
    rw [hact]
    intro hcon
    injection hcon with hcon
    exact hne hcon
  | some cd =>
    rw [set_eq_ok v x hc2]
    constructor
    · have hne2 : c0 ≠ (getContext s).1 := fun he => hne he.symm
      simp only
      rw [if_neg hne2]
      exact hpc
    · show (getContext s).2.activeSlot ≠ some c0
      rw [hact]
      intro hcon
      injection hcon with hcon
      exact hne hcon

theorem reset_ctxs_frame {s : State} (v t : Nat) {c0 : Nat} {cd0 : CtxData}
    (hw : WF s) (hc : s.ctxs c0 = some cd0) (hna : s.activeSlot ≠ some c0) :
    (ContextVar.reset s v t).2.ctxs c0 = some cd0 ∧
    (ContextVar.reset s v t).2.activeSlot ≠ some c0 := by
  obtain ⟨hd, ha, hp, ht⟩ := getContext_wf hw
  have hne := getContext_ne hw.1 hc hna
  have hpc : (getContext s).2.ctxs c0 = some cd0 := getContext_ctxs_pres hw.1 hc
  have hact := getContext_activeSlot s
  have hna2 : (getContext s).2.activeSlot ≠ some c0 := by
    rw [hact]
    intro hcon
    injection hcon with hcon
    exact hne hcon
  cases h : s.toks t with
  | none =>
    rw [reset_eq_badtok h]
    exact ⟨hc, hna⟩
  | some td =>
    have hg : (getContext s).2.toks t = some td := by
      rw [getContext_toks]
      exact h
    cases hu : td.used with
    | true =>
      rw [reset_eq_used h hu]
      exact ⟨hc, hna⟩
    | false =>
      by_cases hv : td.var = v
      case neg =>
        rw [reset_eq_wrongVar h hu hv]
        exact ⟨hc, hna⟩
      case pos =>
        by_cases hcx : td.context = (getContext s).1
        case neg =>
          rw [reset_eq_wrongCtx h hu hv hcx]
          exact ⟨hpc, hna2⟩
        case pos =>
          have hnec : c0 ≠ td.context := by
            intro he
            rw [he] at hne
            exact hne hcx.symm
          cases ho : td.oldValue with
          | none =>
            obtain ⟨cd, hcd, hb⟩ := ht.1 t td hg hu ho
            obtain ⟨y, hy⟩ := Option.isSome_iff_exists.mp hb
            have hdel := Pmap.delete_eq hy
            rw [reset_eq_ok_missing h hu hv hcx hcd ho hdel]
            constructor
            · simp only
              rw [if_neg hnec]
              exact hpc
            · exact hna2
          | some ov =>
            have hb2 : ((getContext s).2.ctxs td.context).isSome = true := by
              rw [hcx]
              exact getContext_isSome hw.1 hw.2.1
            obtain ⟨cd, hcd⟩ := Option.isSome_iff_exists.mp hb2
            rw [reset_eq_ok_bound h hu hv hcx hcd ho]
            constructor
            · simp only
              rw [if_neg hnec]
              exact hpc
            · exact hna2

theorem execProg_seq_ok {st : Stmt} {p : Prog} {s s1 : State} {u : Value}
    (h : execStmt st s = (Except.ok u, s1)) :
    execProg (Prog.seq st p) s = execProg p s1 := by
  simp only [execProg, h]

theorem execProg_seq_error {st : Stmt} {p : Prog} {s s1 : State} {e : Err}
    (h : execStmt st s = (Except.error e, s1)) :
    execProg (Prog.seq st p) s = (Except.error e, s1) := by
  simp only [execProg, h]

theorem setReset_frame : ∀ (p : Prog), onlySetReset p →
    ∀ s c0 cd0, WF s → s.ctxs c0 = some cd0 → s.activeSlot ≠ some c0 →
    (execProg p s).2.ctxs c0 = some cd0
  | Prog.ret x, _, s, c0, cd0, hw, hc, hna => hc
  | Prog.seq (Stmt.sset v xv) p, hsp, s, c0, cd0, hw, hc, hna => by
    have hf := set_ctxs_frame v xv hw hc hna
    have hwn := (set_wf s v xv hw).1
    cases hr : ContextVar.set s v xv with
    | mk r s1 =>
      rw [hr] at hf hwn
      have hstep : execStmt (Stmt.sset v xv) s = (r, s1) := hr
      cases r with
      | ok u =>
        rw [execProg_seq_ok hstep]
        exact setReset_frame p hsp s1 c0 cd0 hwn hf.1 hf.2
      | error e =>
        rw [execProg_seq_error hstep]
        exact hf.1
  | Prog.seq (Stmt.sreset v t) p, hsp, s, c0, cd0, hw, hc, hna => by
    have hf := reset_ctxs_frame v t hw hc hna
    have hwn := (reset_wf s v t hw).1
    cases hr : ContextVar.reset s v t with
    | mk r s1 =>
      rw [hr] at hf hwn
      cases r with
      | ok u =>
        have hstep : execStmt (Stmt.sreset v t) s = (Except.ok 0, s1) := by
          show ((ContextVar.reset s v t).1.map (fun _ => (0 : Value)),
            (ContextVar.reset s v t).2) = (Except.ok 0, s1)
          rw [hr]
          rfl
        rw [execProg_seq_ok hstep]
        exact setReset_frame p hsp s1 c0 cd0 hwn hf.1 hf.2
      | error e =>
        have hstep : execStmt (Stmt.sreset v t) s = (Except.error e, s1) := by
          show ((ContextVar.reset s v t).1.map (fun _ => (0 : Value)),
            (ContextVar.reset s v t).2) = (Except.error e, s1)
          rw [hr]
          rfl
        rw [execProg_seq_error hstep]
        exact hf.1

/-- C6: `copy` returns a fresh (new identity), unentered context whose
bindings equal the source's bindings at the moment of copy, without
touching the registry; afterwards, any sequence of `set`/`reset` calls
leaves the snapshot of every non-active context — in particular
whichever of the source and the copy is not the active one — entirely
unchanged, in both directions. -/
theorem copy_fresh_isolated (s : State) (c : Nat) (cd : CtxData)
    (hw : WF s) (hc : s.ctxs c = some cd) :
    Context.copy s c = (Except.ok s.nextCtx, (Context.copy s c).2) ∧
    s.nextCtx ≠ c ∧
    (Context.copy s c).2.ctxs s.nextCtx = some ⟨cd.data, none⟩ ∧
    (Context.copy s c).2.ctxs c = some cd ∧
    (Context.copy s c).2.activeSlot = s.activeSlot ∧
    (∀ p c0 cd0, onlySetReset p →
      (Context.copy s c).2.ctxs c0 = some cd0 →
      (Context.copy s c).2.activeSlot ≠ some c0 →
      (execProg p (Context.copy s c).2).2.ctxs c0 = some cd0) := by
  have hcopy := copy_eq_ok hc
  have hnc : c ≠ s.nextCtx := by
    intro he
    rw [he, hw.1.1 s.nextCtx (Nat.le_refl _)] at hc
    cases hc
  have hwn := (copy_wf s c hw).1
  rw [hcopy] at hwn
  refine ⟨?_, fun he => hnc he.symm, ?_, ?_, ?_, ?_⟩
  · rw [hcopy]
  · rw [hcopy]
    simp
  · rw [hcopy]
    simp only
    rw [if_neg hnc]
    exact hc
  · rw [hcopy]
  · intro p c0 cd0 hsp hc0 hna0
    rw [hcopy] at hc0 hna0 ⊢
    exact setReset_frame p hsp _ c0 cd0 hwn hc0 hna0

theorem copy_fresh_isolated_witness :
    (execProg (Prog.seq (Stmt.sset 0 9) (Prog.ret 0))
      (Context.copy (ContextVar.set initState 0 5).2 0).2).2.ctxs 1 =
      some ⟨Pmap.set (fun _ => none) 0 5, none⟩ := by
  have h := copy_fresh_isolated (ContextVar.set initState 0 5).2 0
    ⟨Pmap.set (fun _ => none) 0 5, none⟩ (set_wf initState 0 5 wf_initState).1 rfl
  exact h.2.2.2.2.2 (Prog.seq (Stmt.sset 0 9) (Prog.ret 0)) 1
    ⟨Pmap.set (fun _ => none) 0 5, none⟩ trivial h.2.2.1 (by rw [h.2.2.2.2.1]; decide)

/-- C8 counterexample: the constructor accepts the empty string — it
only checks `isinstance(name, str)` — so "succeeds exactly when the name
is a non-empty identifier string" is false on the code. -/
theorem ctxvar_name_cex :
    (∃ vd, ContextVar.mk0 (PyObj.pyStr (r"")) none = Except.ok vd) ∧
    ¬ (∃ ss, PyObj.pyStr (r"") = PyObj.pyStr ss ∧ isPyIdentifier ss = true) := by
  refine ⟨⟨⟨r"", none⟩, rfl⟩, ?_⟩
  rintro ⟨ss, hss, hid⟩
  injection hss with hss
  rw [← hss] at hid
  exact absurd hid (by decide)

/-- C8 (amended): constructing a Variable succeeds exactly when the
supplied name is a string — any string; neither emptiness nor identifier
syntax nor uniqueness against other variables is validated — in which
case the name is stored verbatim (for diagnostics) together with the
optional default; any non-string name fails with the type-mismatch
condition. -/
theorem ctxvar_name_requires_str (name : PyObj) (d : Option Value) :
    (∀ ss, ContextVar.mk0 (PyObj.pyStr ss) d = Except.ok ⟨ss, d⟩) ∧
    ((∀ ss, name ≠ PyObj.pyStr ss) →
      ContextVar.mk0 name d = Except.error Err.typeErr) := by
  refine ⟨fun ss => rfl, ?_⟩
  intro hns
  cases name with
  | pyStr ss => exact absurd rfl (hns ss)
  | pyInt n => rfl
  | pyNone => rfl

theorem ctxvar_name_requires_str_witness :
    ContextVar.mk0 (PyObj.pyStr (r"")) none = Except.ok ⟨r"", none⟩ ∧
    ContextVar.mk0 (PyObj.pyInt 3) none = Except.error Err.typeErr :=
  ⟨(ctxvar_name_requires_str (PyObj.pyStr (r"")) none).1 (r""),
   (ctxvar_name_requires_str (PyObj.pyInt 3) none).2 (fun ss h => by cases h)⟩

/-- C9: along every program over the public operations, started from
the initial state, execution never surfaces the persistent map's
absent-key failure (`KeyError` from `delete`), and in the resulting
state every unused token whose recorded prior value is the MISSING
marker still finds its variable bound in its context — which is exactly
why the `delete` performed by a passing `reset` cannot hit the
absent-key branch. -/
theorem reachable_reset_delete_safe (p : Prog) :
    (execProg p initState).1 ≠ Except.error Err.keyErr ∧
    (∀ t td, (execProg p initState).2.toks t = some td → td.used = false →
      td.oldValue = none →
      ∃ cd, (execProg p initState).2.ctxs td.context = some cd ∧
        (cd.data td.var).isSome = true) := by
  have h := execProg_wf p initState wf_initState
  exact ⟨h.2.2, h.1.2.2.2.1⟩

theorem reachable_reset_delete_safe_witness :
    ∃ cd, (execProg progW initState).2.ctxs 0 = some cd ∧
      (cd.data 0).isSome = true :=
  (reachable_reset_delete_safe progW).2 0 ⟨0, 0, none, false⟩ rfl rfl rfl
